import Mathlib

/-!
Verification of loady (lib/loady.js): a resolver and loader for prebuilt
native binary artifacts.  The JavaScript source is shallowly embedded below:
the Node path primitives used by the code (posix join, normalize, resolve,
dirname, extname) are modelled character-for-character after their
documented algorithms, the external capabilities (existsSync, require,
url.fileURLToPath, and JS truthiness of the abstract loaded artifact) are
fields of an explicit environment, and the module-level cache is threaded
as explicit state.  Machine loading itself is out of scope, exactly as in
the source.
-/

namespace Loady

/-! ## Character-level string utilities (Node posix path model) -/

/-- Split a character list on a separator, JS `String.prototype.split` style:
the empty list yields one empty group, separators delimit possibly empty
groups. -/
def splitOnChar (sep : Char) : List Char → List (List Char)
  | [] => [[]]
  | c :: rest =>
    let r := splitOnChar sep rest
    if c == sep then [] :: r
    else
      match r with
      | [] => [[c]]
      | g :: gs => (c :: g) :: gs

/-- Join groups of characters with a slash between consecutive groups. -/
def interSlashC : List (List Char) → List Char
  | [] => []
  | [g] => g
  | g :: g' :: gs => g ++ '/' :: interSlashC (g' :: gs)

/-- Node `normalizeString` over path segments: drops empty and dot
segments and resolves dot-dot segments, keeping them only above the root
when `allowAboveRoot` is set.  The accumulator is kept reversed. -/
def normSegsC (allowAboveRoot : Bool) : List (List Char) → List (List Char) → List (List Char)
  | acc, [] => acc.reverse
  | acc, seg :: rest =>
    if seg = [] || seg = ['.'] then normSegsC allowAboveRoot acc rest
    else if seg = ['.', '.'] then
      match acc with
      | [] =>
        if allowAboveRoot then normSegsC allowAboveRoot [['.', '.']] rest
        else normSegsC allowAboveRoot [] rest
      | top :: accRest =>
        if top = ['.', '.'] then
          if allowAboveRoot then normSegsC allowAboveRoot (['.', '.'] :: acc) rest
          else normSegsC allowAboveRoot acc rest
        else normSegsC allowAboveRoot accRest rest
    else normSegsC allowAboveRoot (seg :: acc) rest

/-- Node posix `path.normalize` on character lists. -/
def normalizeChars (cs : List Char) : List Char :=
  if cs = [] then ['.']
  else
    let abs := cs.head? == some '/'
    let trailing := cs.getLast? == some '/'
    let core := interSlashC (normSegsC (!abs) [] (splitOnChar '/' cs))
    if core = [] then
      if abs then ['/'] else if trailing then ['.', '/'] else ['.']
    else
      let core2 := if trailing then core ++ ['/'] else core
      if abs then '/' :: core2 else core2

/-- Node posix `path.join(...parts)`: empty parts are dropped, the rest are
joined with a slash and normalized; the empty join is the current
directory. -/
def pjoin (parts : List String) : String :=
  let fp := (parts.map String.data).filter (fun g => !g.isEmpty)
  if fp.isEmpty then "." else String.mk (normalizeChars (interSlashC fp))

/-- Node posix `path.resolve(path)` against a current working directory:
a relative path is prefixed by the cwd, then normalized without
above-root segments when the result is rooted. -/
def resolveChars (cwd p : List Char) : List Char :=
  let s := if p.isEmpty then cwd else if p.head? == some '/' then p else cwd ++ '/' :: p
  let abs :=
    if p.isEmpty then cwd.head? == some '/'
    else (p.head? == some '/' || cwd.head? == some '/')
  let core := interSlashC (normSegsC (!abs) [] (splitOnChar '/' s))
  if abs then '/' :: core else if core.isEmpty then ['.'] else core

/-- Node posix `path.resolve` on strings. -/
def resolvePath (cwd p : String) : String :=
  String.mk (resolveChars cwd.data p.data)

/-- The index at which Node `path.dirname` cuts: scanning from the end of
the characters after the first, skip trailing slashes, skip the final
name, and count what precedes the slash found there; zero encodes the JS
loop finding none. -/
def dirnameEnd (rest : List Char) : Nat :=
  ((rest.reverse.dropWhile (fun c => c == '/')).dropWhile (fun c => !(c == '/'))).length

/-- Node posix `path.dirname` on character lists: cut at the slash before
the final name; no slash found gives the root or the current directory,
and a cut right after a doubled leading slash keeps it. -/
def dirnameChars (cs : List Char) : List Char :=
  match cs with
  | [] => ['.']
  | c0 :: rest =>
    if dirnameEnd rest = 0 then
      if c0 = '/' then ['/'] else ['.']
    else if c0 = '/' ∧ dirnameEnd rest = 1 then ['/', '/']
    else (c0 :: rest).take (dirnameEnd rest)

/-- Node posix `path.dirname` on strings. -/
def dirname (s : String) : String :=
  String.mk (dirnameChars s.data)

/-- The characters of the final path component, trailing slashes
trimmed, as used by Node `path.extname`. -/
def lastBaseChars (cs : List Char) : List Char :=
  ((cs.reverse.dropWhile (fun c => c == '/')).takeWhile (fun c => !(c == '/'))).reverse

/-- Node posix `path.extname`: the part of the final component from its
last dot, empty when there is no dot, the dot leads the component, or
the component is exactly dot-dot. -/
def extnameOf (p : String) : String :=
  let b := lastBaseChars p.data
  let afterRev := b.reverse.takeWhile (fun c => !(c == '.'))
  if afterRev.length == b.length then ""
  else
    let i := b.length - afterRev.length - 1
    if i == 0 then ""
    else if b = ['.', '.'] then ""
    else String.mk (b.drop i)

/-- First character of a string, `undefined`-free model of JS `s[0]`. -/
def headChar (s : String) : Option Char := s.data.head?

/-- Whether a path is posix-absolute (leading slash). -/
def isAbs (s : String) : Bool := headChar s == some '/'

/-- JS `s.substring(1)` for the ASCII strings used in the templates. -/
def strTail (s : String) : String := String.mk (s.data.drop 1)

/-- JS `path.indexOf(&quot;file:&quot;) === 0`. -/
def startsWithFile (s : String) : Bool := s.data.take 5 == ['f', 'i', 'l', 'e', ':']

/-- Contiguous-sublist test, the model of a substring regex match. -/
def hasSub (needle : List Char) : List Char → Bool
  | [] => needle.isEmpty
  | c :: rest => needle.isPrefixOf (c :: rest) || hasSub needle rest

/-! ## Errors and the environment -/

/-- A JS error as the code observes it: a `code` property (empty when the
thrower set none) and a `message`. -/
structure JsError where
  code : String
  message : String
deriving DecidableEq

/-- The errors `loady` itself produces or propagates. -/
inductive LoadyError where
  /-- ERR_BINDINGS_FILE_URI: file URLs unsupported on this platform. -/
  | fileURI (url : String)
  /-- ERR_BINDINGS_NO_ROOT: no package.json or node_modules up to the
  filesystem root; carries the path `getRoot` was given. -/
  | noRoot (path : String)
  /-- A load failure not classified as not-found, rethrown unmodified. -/
  | loadFailed (e : JsError)
  /-- ERR_BINDINGS_NOT_FOUND: every candidate failed as not-found;
  carries the ordered list of attempted paths. -/
  | notFound (tries : List String)
deriving DecidableEq

/-- The `code` property of each surfaced error, as set by the source. -/
def errCode : LoadyError → String
  | .fileURI _ => "ERR_BINDINGS_FILE_URI"
  | .noRoot _ => "ERR_BINDINGS_NO_ROOT"
  | .loadFailed e => e.code
  | .notFound _ => "ERR_BINDINGS_NOT_FOUND"

/-- The substitution values of the candidate templates: the module-level
`defaults` object of the source, with `root` and `name` overridden per
call. -/
structure Options where
  root : String
  name : String
  arch : String
  compiled : String
  pregyp : String
  platform : String
  version : String
deriving DecidableEq

/-- Field lookup `options[name]` for the template variables.  Every
variable of the fixed template list names one of the seven fields, so the
catch-all (JS would produce `undefined`) is unreachable. -/
def optField (o : Options) : String → String
  | "root" => o.root
  | "name" => o.name
  | "arch" => o.arch
  | "compiled" => o.compiled
  | "pregyp" => o.pregyp
  | "platform" => o.platform
  | "version" => o.version
  | _ => "undefined"

/-- The environment of one call: the host facts and external capabilities
the source reads.  `fsExists` is `fs.existsSync`, `loadBinding` is the
`require`-style load capability, `fileURLToPath` is `url.fileURLToPath`
when the platform has it, `truthy` is JS truthiness of a loaded artifact,
and `defaults` holds the environment-derived template values. -/
structure Env (α : Type) where
  cwd : String
  fsExists : String → Bool
  loadBinding : String → Except JsError α
  fileURLToPath : Option (String → String)
  truthy : α → Bool
  defaults : Options

/-- The not-found classification of a load failure: a structured
MODULE_NOT_FOUND, a structured QUALIFIED_PATH_RESOLUTION_FAILED, or a
message matching /not find/i. -/
def isNotFoundErr (e : JsError) : Bool :=
  e.code == "MODULE_NOT_FOUND"
    || e.code == "QUALIFIED_PATH_RESOLUTION_FAILED"
    || hasSub ("not find".data) (e.message.data.map Char.toLower)

/-- Whether loading the file reports a classified not-found failure. -/
def loadClassifiedNotFound (env : Env α) (file : String) : Bool :=
  match env.loadBinding file with
  | .ok _ => false
  | .error e => isNotFoundErr e

/-! ## The source functions -/

/-- Name normalization: append the `.node` extension when absent. -/
def normalizeName (name : String) : String :=
  if extnameOf name ≠ ".node" then name ++ ".node" else name

/-- `ensurePath`: a `file:` origin is converted to the directory
containing the URI target, failing when the platform lacks
`fileURLToPath`; any other origin passes through unchanged. -/
def ensurePath (env : Env α) (path : String) : Except LoadyError String :=
  if startsWithFile path then
    match env.fileURLToPath with
    | none => .error (.fileURI path)
    | some f => .ok (dirname (f path))
  else .ok path

/-- The cache key: name and path joined by a NUL character. -/
def cacheKey (name path : String) : String := name ++ "\x00" ++ path

/-- Module-level cache model: newest binding first, JS property lookup. -/
def cacheGet (c : List (String × α)) (k : String) : Option α := List.lookup k c

/-- JS `cache[key] = binding`. -/
def cacheSet (c : List (String × α)) (k : String) (v : α) : List (String × α) :=
  (k, v) :: c

/-- The truthiness-guarded cache read `if (cache[key]) return cache[key]`. -/
def cacheHit (env : Env α) (c : List (String × α)) (k : String) : Option α :=
  match cacheGet c k with
  | some b => if env.truthy b then some b else none
  | none => none

/-- A directory is a project root when it holds a `package.json` file or a
`node_modules` directory. -/
def hasMarker (env : Env α) (dir : String) : Bool :=
  env.fsExists (pjoin [dir, "package.json"]) || env.fsExists (pjoin [dir, "node_modules"])

/-- Termination measure of the upward walk: `dirname` strictly decreases
it until its fixed point. -/
def muC (l : List Char) : Nat :=
  if l = ['.'] then 0 else if l = [] then 1 else 2 * l.length

/-- The measure on strings. -/
def muP (s : String) : Nat := muC s.data

/-- The upward root walk with fuel.  The fuel is chosen so the zero case
is unreachable; both exits mirror the source: a marker stops with that
directory, the `dirname` fixed point (the filesystem root) raises
ERR_BINDINGS_NO_ROOT carrying the original argument. -/
def getRootGo (env : Env α) (orig : String) : Nat → String → Except LoadyError String
  | 0, _ => .error (.noRoot orig)
  | fuel + 1, root =>
    if hasMarker env root then .ok root
    else
      let next := dirname root
      if next = root then .error (.noRoot orig)
      else getRootGo env orig fuel next

/-- `getRoot`: resolve the path and walk upward to the nearest marker. -/
def getRoot (env : Env α) (path : String) : Except LoadyError String :=
  let start := resolvePath env.cwd path
  getRootGo env path (muP start + 1) start

/-- The chain of directories `dirname` steps through from a start,
inclusive, ending at the fixed point. -/
def dirChain : Nat → String → List String
  | 0, _ => []
  | fuel + 1, p => p :: (if dirname p = p then [] else dirChain fuel (dirname p))

/-- The full directory chain upward from the resolved origin. -/
def chainOf (env : Env α) (path : String) : List String :=
  let start := resolvePath env.cwd path
  dirChain (muP start + 1) start

/-- The fixed ordered template list of the source, verbatim. -/
def paths : List (List String) :=
  [ ["$root", "build", "$name"],
    ["$root", "build", "Debug", "$name"],
    ["$root", "build", "Release", "$name"],
    ["$root", "$name"],
    ["$root", "Debug", "$name"],
    ["$root", "Release", "$name"],
    ["$root", "MinSizeRel", "$name"],
    ["$root", "RelWithDebInfo", "$name"],
    ["$root", "out", "Debug", "$name"],
    ["$root", "Debug", "$name"],
    ["$root", "out", "Release", "$name"],
    ["$root", "Release", "$name"],
    ["$root", "build", "default", "$name"],
    ["$root", "$compiled", "$version", "$platform", "$arch", "$name"],
    ["$root", "addon-build", "release", "install-root", "$name"],
    ["$root", "addon-build", "debug", "install-root", "$name"],
    ["$root", "addon-build", "default", "install-root", "$name"],
    ["$root", "lib", "binding", "$pregyp", "$name"] ]

/-- Expand one template: dollar segments are substituted from the
options, literals pass through, and the segments are joined. -/
def expandTemplate (opts : Options) (parts : List String) : String :=
  pjoin (parts.map (fun part =>
    if headChar part == some '$' then optField opts (strTail part) else part))

/-- The ordered candidate list of one configuration. -/
def candidates (opts : Options) : List String :=
  paths.map (expandTemplate opts)

/-- The per-call options: module defaults with `root` and `name` set. -/
def optionsFor (env : Env α) (root name : String) : Options :=
  { env.defaults with root := root, name := name }

/-- The candidate loop: push the expanded file onto the attempt list, try
the load capability, swallow classified not-found failures and continue,
stop on success or any other failure, and report ERR_BINDINGS_NOT_FOUND
with the attempts when the list runs out. -/
def tryCandidates (env : Env α) (opts : Options) :
    List (List String) → List String → Except LoadyError α × List String
  | [], tries => (.error (.notFound tries), tries)
  | parts :: rest, tries =>
    let file := expandTemplate opts parts
    let tries' := tries ++ [file]
    match env.loadBinding file with
    | .ok b => (.ok b, tries')
    | .error e =>
      if isNotFoundErr e then tryCandidates env opts rest tries'
      else (.error (.loadFailed e), tries')

/-- How many candidates of a template list the loop attempts. -/
def numAttempts (env : Env α) (opts : Options) : List (List String) → Nat
  | [] => 0
  | parts :: rest =>
    match env.loadBinding (expandTemplate opts parts) with
    | .ok _ => 1
    | .error e => if isNotFoundErr e then numAttempts env opts rest + 1 else 1

instance {ε α : Type} [DecidableEq ε] [DecidableEq α] : DecidableEq (Except ε α) := fun x y =>
  match x, y with
  | .ok a, .ok b =>
    if h : a = b then .isTrue (by rw [h]) else .isFalse (fun hh => h (Except.ok.inj hh))
  | .ok _, .error _ => .isFalse (fun hh => Except.noConfusion hh)
  | .error _, .ok _ => .isFalse (fun hh => Except.noConfusion hh)
  | .error a, .error b =>
    if h : a = b then .isTrue (by rw [h]) else .isFalse (fun hh => h (Except.error.inj hh))

/-- The observable outcome of one call: the result or error, the cache
after the call, and the files handed to the load capability, in order. -/
structure LoadyResult (α : Type) where
  res : Except LoadyError α
  cache : List (String × α)
  tries : List String
deriving DecidableEq

/-- Whether a result is a success. -/
def resIsOk : Except LoadyError α → Bool
  | .ok _ => true
  | .error _ => false

/-- The body of `loady` after name normalization: ensure the path, check
the cache, locate the root, and run the candidate loop, caching only on
success. -/
def loadyGo (env : Env α) (cache : List (String × α)) (name path : String) : LoadyResult α :=
  match ensurePath env path with
  | .error e => ⟨.error e, cache, []⟩
  | .ok p =>
    match cacheHit env cache (cacheKey name p) with
    | some b => ⟨.ok b, cache, []⟩
    | none =>
      match getRoot env p with
      | .error e => ⟨.error e, cache, []⟩
      | .ok root =>
        match tryCandidates env (optionsFor env root name) paths [] with
        | (.ok b, tries) => ⟨.ok b, cacheSet cache (cacheKey name p) b, tries⟩
        | (.error e, tries) => ⟨.error e, cache, tries⟩

/-- `loady(name, path)` with the cache as explicit state.  The JS string
type checks precede everything and are vacuous under this typing. -/
def loady (env : Env α) (cache : List (String × α)) (name path : String) : LoadyResult α :=
  loadyGo env cache (normalizeName name) path

/-! ## Concrete environments used to evaluate the theorems -/

/-- Plausible host defaults for a linux x64 Node 18 process. -/
def defaultsDemo : Options :=
  ⟨"/", "bindings.node", "x64", "compiled", "node-v108-linux-x64", "linux", "18.17.0"⟩

/-- The structured not-found failure Node `require` raises. -/
def notFoundErrDemo : JsError := ⟨"MODULE_NOT_FOUND", "Cannot find module"⟩

/-- An unclassified load failure, as from a corrupt binary. -/
def fatalErrDemo : JsError := ⟨"ERR_DLOPEN_FAILED", "invalid ELF header"⟩

/-- A host with a project at /proj and no loadable candidate anywhere. -/
def envExhaust : Env Nat :=
  { cwd := "/", fsExists := fun s => s == "/proj/package.json",
    loadBinding := fun _ => Except.error notFoundErrDemo,
    fileURLToPath := none, truthy := fun n => n != 0, defaults := defaultsDemo }

/-- A host with no root marker anywhere and a working URL decoder. -/
def envNoMarkers : Env Nat :=
  { envExhaust with
    fsExists := fun _ => false,
    fileURLToPath := some (fun _ => "/proj/index.js") }

/-- A host whose third candidate raises an unclassified failure. -/
def envFatalThird : Env Nat :=
  { envExhaust with
    loadBinding := fun f =>
      if f == "/proj/build/Release/foo.node" then Except.error fatalErrDemo
      else Except.error notFoundErrDemo }

/-- A host whose first candidate loads a truthy artifact. -/
def envOk : Env Nat :=
  { envExhaust with
    loadBinding := fun f =>
      if f == "/proj/build/foo.node" then Except.ok 7 else Except.error notFoundErrDemo }

/-- A host whose first candidate loads a falsy artifact (exports 0). -/
def envFalsy : Env Nat :=
  { envExhaust with
    loadBinding := fun f =>
      if f == "/proj/build/foo.node" then Except.ok 0 else Except.error notFoundErrDemo }

/-- `envOk` with a working URL decoder mapping onto /proj. -/
def envURIOk : Env Nat := { envOk with fileURLToPath := some (fun _ => "/proj/index.js") }

/-- `envFalsy` with a working URL decoder mapping onto /proj. -/
def envURIFalsy : Env Nat := { envFalsy with fileURLToPath := some (fun _ => "/proj/index.js") }

/-- A sample configuration for evaluating the candidate generator. -/
def demoOpts : Options :=
  ⟨"/proj", "foo.node", "x64", "compiled", "node-v108-linux-x64", "linux", "18.17.0"⟩

/-- A host whose only root marker sits at /a, two levels above /a/b/c. -/
def envChain : Env Nat :=
  { envExhaust with fsExists := fun s => s == "/a/package.json" }

/-! ## Basic lemmas -/

theorem strMk_data (s : String) : String.mk s.data = s := rfl

theorem dropWhile_length_le (q : Char → Bool) (l : List Char) :
    (l.dropWhile q).length ≤ l.length := by
  induction l with
  | nil => simp [List.dropWhile]
  | cons a as ih =>
    rw [List.dropWhile_cons]
    by_cases h : q a
    · simp only [h, if_true]
      exact Nat.le_trans ih (by simp)
    · simp [h]

theorem dropWhile_eq_self_or_lt (q : Char → Bool) (l : List Char) :
    l.dropWhile q = l ∨ (l.dropWhile q).length < l.length := by
  cases l with
  | nil => exact Or.inl rfl
  | cons a as =>
    rw [List.dropWhile_cons]
    by_cases h : q a
    · simp only [h, if_true, List.length_cons]
      exact Or.inr (Nat.lt_succ_of_le (dropWhile_length_le q as))
    · simp [h]

theorem dropWhile_head_false (q : Char → Bool) :
    ∀ (l : List Char) (a : Char) (as : List Char), l.dropWhile q = a :: as → q a = false := by
  intro l
  induction l with
  | nil => intro a as h; simp [List.dropWhile] at h
  | cons b bs ih =>
    intro a as h
    rw [List.dropWhile_cons] at h
    by_cases hb : q b
    · rw [if_pos hb] at h
      exact ih a as h
    · rw [if_neg hb] at h
      injection h with h1 h2
      subst h1
      exact Bool.eq_false_iff.mpr hb

/-! ## The dirname measure -/

theorem muC_ne (l : List Char) (h1 : l ≠ ['.']) (h2 : l ≠ []) : muC l = 2 * l.length := by
  simp [muC, h1, h2]

theorem dirnameEnd_le (rest : List Char) : dirnameEnd rest ≤ rest.length := by
  unfold dirnameEnd
  calc ((rest.reverse.dropWhile (fun c => c == '/')).dropWhile (fun c => !(c == '/'))).length
      ≤ (rest.reverse.dropWhile (fun c => c == '/')).length := dropWhile_length_le _ _
    _ ≤ rest.reverse.length := dropWhile_length_le _ _
    _ = rest.length := List.length_reverse _

theorem dirnameEnd_one_lt (rest : List Char) (h : dirnameEnd rest = 1) : 2 ≤ rest.length := by
  unfold dirnameEnd at h
  rcases dropWhile_eq_self_or_lt (fun c => !(c == '/'))
      (rest.reverse.dropWhile (fun c => c == '/')) with heq | hlt
  · exfalso
    rw [heq] at h
    match hA : rest.reverse.dropWhile (fun c => c == '/'), h with
    | [a], _ =>
      have h1 : (fun c => c == '/') a = false := dropWhile_head_false _ _ a [] hA
      have h2 : (fun c => !(c == '/')) a = false := by
        rw [← heq] at hA
        exact dropWhile_head_false _ _ a [] hA
      simp at h1 h2
      exact h1 (by rw [h2])
  · have h1 : (rest.reverse.dropWhile (fun c => c == '/')).length ≤ rest.length := by
      calc (rest.reverse.dropWhile (fun c => c == '/')).length
          ≤ rest.reverse.length := dropWhile_length_le _ _
        _ = rest.length := List.length_reverse _
    omega

theorem dirnameChars_mu (cs : List Char) (h : dirnameChars cs ≠ cs) :
    muC (dirnameChars cs) < muC cs := by
  match cs with
  | [] => simp [dirnameChars, muC]
  | c0 :: rest =>
    have hne2 : (c0 :: rest : List Char) ≠ [] := by simp
    by_cases h0 : dirnameEnd rest = 0
    · by_cases hc : c0 = '/'
      · have hd : dirnameChars (c0 :: rest) = ['/'] := by
          simp [dirnameChars, h0, hc]
        rw [hd] at h ⊢
        subst hc
        have hrest : rest ≠ [] := by
          intro hr
          exact h (by rw [hr])
        have hlen : 1 ≤ rest.length := List.length_pos.mpr hrest
        rw [muC_ne ['/'] (by decide) (by decide),
          muC_ne ('/' :: rest) (fun he => by
            injection he with he1 he2
            exact absurd he2 hrest) hne2]
        simp
        omega
      · have hd : dirnameChars (c0 :: rest) = ['.'] := by
          simp [dirnameChars, h0, hc]
        rw [hd] at h ⊢
        have : muC (c0 :: rest) = 2 * (c0 :: rest).length :=
          muC_ne _ (fun he => h he.symm) hne2
        rw [this]
        simp [muC]
    · have hd1 : (c0 :: rest : List Char) ≠ ['.'] := by
        intro he
        injection he with he1 he2
        rw [he2] at h0
        exact h0 rfl
      by_cases h1 : c0 = '/' ∧ dirnameEnd rest = 1
      · have hd : dirnameChars (c0 :: rest) = ['/', '/'] := by
          simp [dirnameChars, h0, h1]
        rw [hd] at h ⊢
        have h2 : 2 ≤ rest.length := dirnameEnd_one_lt rest h1.2
        rw [muC_ne ['/', '/'] (by decide) (by decide), muC_ne _ hd1 hne2]
        simp
        omega
      · have hd : dirnameChars (c0 :: rest) = (c0 :: rest).take (dirnameEnd rest) := by
          simp [dirnameChars, h0, h1]
        rw [hd] at h ⊢
        have hE1 : 1 ≤ dirnameEnd rest := Nat.one_le_iff_ne_zero.mpr h0
        have hEle : dirnameEnd rest ≤ rest.length := dirnameEnd_le rest
        have hlen : ((c0 :: rest).take (dirnameEnd rest)).length = dirnameEnd rest := by
          rw [List.length_take]
          simp
          omega
        have htne : (c0 :: rest).take (dirnameEnd rest) ≠ [] := by
          intro he
          rw [he] at hlen
          simp at hlen
          omega
        rw [muC_ne _ hd1 hne2]
        by_cases hres : (c0 :: rest).take (dirnameEnd rest) = ['.']
        · rw [hres]
          simp [muC]
        · rw [muC_ne _ hres htne, hlen]
          simp
          omega

theorem dirname_mu (s : String) (h : dirname s ≠ s) : muP (dirname s) < muP s := by
  have hl : dirnameChars s.data ≠ s.data := by
    intro he
    exact h (by unfold dirname; rw [he])
  exact dirnameChars_mu s.data hl

/-! ## The upward walk reaches the first marker of the dirname chain -/

theorem dirChain_stable :
    ∀ (f1 f2 : Nat) (p : String), muP p < f1 → muP p < f2 → dirChain f1 p = dirChain f2 p := by
  intro f1
  induction f1 with
  | zero => intro f2 p h1 h2; exact absurd h1 (Nat.not_lt_zero _)
  | succ f1 ih =>
    intro f2 p h1 h2
    cases f2 with
    | zero => exact absurd h2 (Nat.not_lt_zero _)
    | succ f2 =>
      simp only [dirChain]
      by_cases hfix : dirname p = p
      · simp [hfix]
      · simp only [hfix, if_neg, ite_false]
        have hmu := dirname_mu p hfix
        exact congrArg (fun l => p :: l) (ih f2 (dirname p) (by omega) (by omega))

theorem getRootGo_eq (env : Env α) (orig : String) :
    ∀ (fuel : Nat) (root : String), muP root < fuel →
      getRootGo env orig fuel root =
        (match (dirChain (muP root + 1) root).find? (fun d => hasMarker env d) with
         | some d => Except.ok d
         | none => Except.error (LoadyError.noRoot orig)) := by
  intro fuel
  induction fuel with
  | zero => intro root h; exact absurd h (Nat.not_lt_zero _)
  | succ fuel ih =>
    intro root h
    simp only [getRootGo, dirChain]
    cases hm : hasMarker env root with
    | true =>
      rw [List.find?_cons_of_pos _ hm]
      simp
    | false =>
      rw [List.find?_cons_of_neg _ (by rw [hm]; exact Bool.false_ne_true)]
      simp only [Bool.false_eq_true, if_false]
      by_cases hfix : dirname root = root
      · simp [hfix]
      · simp only [hfix, ite_false]
        have hmu := dirname_mu root hfix
        rw [dirChain_stable (muP root) (muP (dirname root) + 1) (dirname root)
          (by omega) (by omega)]
        exact ih (dirname root) (by omega)

theorem getRoot_eq (env : Env α) (path : String) :
    getRoot env path =
      (match (chainOf env path).find? (fun d => hasMarker env d) with
       | some d => Except.ok d
       | none => Except.error (LoadyError.noRoot path)) := by
  unfold getRoot chainOf
  exact getRootGo_eq env path (muP (resolvePath env.cwd path) + 1)
    (resolvePath env.cwd path) (Nat.lt_succ_self _)

/-! ## The candidate loop -/

theorem tryCandidates_tries (env : Env α) (opts : Options) :
    ∀ (ts : List (List String)) (acc : List String),
      (tryCandidates env opts ts acc).2 =
        acc ++ (ts.map (expandTemplate opts)).take (numAttempts env opts ts) := by
  intro ts
  induction ts with
  | nil => intro acc; simp [tryCandidates, numAttempts]
  | cons t rest ih =>
    intro acc
    simp only [tryCandidates, numAttempts, List.map_cons]
    cases hl : env.loadBinding (expandTemplate opts t) with
    | ok b => simp [List.take_succ_cons]
    | error e =>
      by_cases hn : isNotFoundErr e = true
      · simp only [hn, if_true, ih, List.take_succ_cons]
        simp
      · simp [hn]

theorem tryCandidates_before_notFound (env : Env α) (opts : Options) :
    ∀ (ts : List (List String)) (j : Nat), j + 1 < numAttempts env opts ts →
      loadClassifiedNotFound env ((ts.map (expandTemplate opts)).getD j "") = true := by
  intro ts
  induction ts with
  | nil => intro j h; simp [numAttempts] at h
  | cons t rest ih =>
    intro j h
    simp only [numAttempts] at h
    cases hl : env.loadBinding (expandTemplate opts t) with
    | ok b => rw [hl] at h; dsimp only at h; omega
    | error e =>
      rw [hl] at h
      dsimp only at h
      by_cases hn : isNotFoundErr e = true
      · rw [if_pos hn] at h
        cases j with
        | zero =>
          simp only [List.map_cons, List.getD_cons_zero]
          simp [loadClassifiedNotFound, hl, hn]
        | succ j =>
          simp only [List.map_cons, List.getD_cons_succ]
          exact ih j (by omega)
      · rw [if_neg hn] at h; omega

theorem tryCandidates_attempted (env : Env α) (opts : Options) :
    ∀ (ts : List (List String)) (j : Nat), j < ts.length →
      (∀ i, i < j → loadClassifiedNotFound env ((ts.map (expandTemplate opts)).getD i "") = true) →
      j < numAttempts env opts ts := by
  intro ts
  induction ts with
  | nil => intro j h _; simp at h
  | cons t rest ih =>
    intro j hj hbefore
    cases j with
    | zero =>
      simp only [numAttempts]
      cases hl : env.loadBinding (expandTemplate opts t) with
      | ok b => dsimp only; omega
      | error e =>
        dsimp only
        by_cases hn : isNotFoundErr e = true
        · rw [if_pos hn]; omega
        · rw [if_neg hn]; omega
    | succ j =>
      have h0 := hbefore 0 (Nat.succ_pos j)
      simp only [List.map_cons, List.getD_cons_zero] at h0
      rw [loadClassifiedNotFound] at h0
      cases hl : env.loadBinding (expandTemplate opts t) with
      | ok b => rw [hl] at h0; dsimp only at h0; exact absurd h0 (by simp)
      | error e =>
        rw [hl] at h0
        dsimp only at h0
        simp only [numAttempts]
        rw [hl]
        dsimp only
        rw [if_pos h0]
        have hrec : j < numAttempts env opts rest := by
          apply ih j (by simp at hj; omega)
          intro i hi
          have := hbefore (i + 1) (by omega)
          simpa using this
        omega

theorem tryCandidates_exhaust (env : Env α) (opts : Options) :
    ∀ (ts : List (List String)) (acc : List String),
      (∀ f ∈ ts.map (expandTemplate opts), loadClassifiedNotFound env f = true) →
      tryCandidates env opts ts acc =
        (Except.error (LoadyError.notFound (acc ++ ts.map (expandTemplate opts))),
          acc ++ ts.map (expandTemplate opts)) := by
  intro ts
  induction ts with
  | nil => intro acc _; simp [tryCandidates]
  | cons t rest ih =>
    intro acc hall
    have h0 : loadClassifiedNotFound env (expandTemplate opts t) = true := by
      apply hall
      simp
    rw [loadClassifiedNotFound] at h0
    simp only [tryCandidates]
    cases hl : env.loadBinding (expandTemplate opts t) with
    | ok b => rw [hl] at h0; dsimp only at h0; exact absurd h0 (by simp)
    | error e =>
      rw [hl] at h0
      dsimp only at h0
      dsimp only
      rw [if_pos h0]
      rw [ih (acc ++ [expandTemplate opts t]) (by intro f hf; exact hall f (by simp [hf]))]
      simp

theorem tryCandidates_fatal (env : Env α) (opts : Options) :
    ∀ (j : Nat) (ts : List (List String)) (acc : List String) (e : JsError),
      j < ts.length →
      (∀ i, i < j → loadClassifiedNotFound env ((ts.map (expandTemplate opts)).getD i "") = true) →
      env.loadBinding ((ts.map (expandTemplate opts)).getD j "") = Except.error e →
      isNotFoundErr e = false →
      tryCandidates env opts ts acc =
        (Except.error (LoadyError.loadFailed e),
          acc ++ (ts.map (expandTemplate opts)).take (j + 1)) := by
  intro j
  induction j with
  | zero =>
    intro ts acc e hj hbefore hload hclass
    cases ts with
    | nil => simp at hj
    | cons t rest =>
      simp only [List.map_cons, List.getD_cons_zero] at hload
      simp only [tryCandidates]
      rw [hload]
      dsimp only
      rw [if_neg (by rw [hclass]; exact Bool.false_ne_true)]
      simp [List.take_succ_cons]
  | succ j ih =>
    intro ts acc e hj hbefore hload hclass
    cases ts with
    | nil => simp at hj
    | cons t rest =>
      have h0 := hbefore 0 (Nat.succ_pos j)
      simp only [List.map_cons, List.getD_cons_zero] at h0
      rw [loadClassifiedNotFound] at h0
      cases hl : env.loadBinding (expandTemplate opts t) with
      | ok b => rw [hl] at h0; dsimp only at h0; exact absurd h0 (by simp)
      | error e0 =>
        rw [hl] at h0
        dsimp only at h0
        simp only [tryCandidates]
        rw [hl]
        dsimp only
        rw [if_pos h0]
        rw [ih rest (acc ++ [expandTemplate opts t]) e (by simp at hj; omega)
          (by intro i hi; have := hbefore (i + 1) (by omega); simpa using this)
          (by simpa using hload) hclass]
        simp [List.take_succ_cons]

/-! ## Cache and top-level plumbing -/

theorem cacheHit_some (env : Env α) (c : List (String × α)) (k : String) (b : α)
    (h : cacheHit env c k = some b) : cacheGet c k = some b ∧ env.truthy b = true := by
  rw [cacheHit] at h
  cases hg : cacheGet c k with
  | none => rw [hg] at h; dsimp only at h; exact absurd h (by simp)
  | some x =>
    rw [hg] at h
    dsimp only at h
    by_cases ht : env.truthy x = true
    · rw [if_pos ht] at h
      injection h with hx
      subst hx
      exact ⟨rfl, ht⟩
    · rw [if_neg ht] at h
      exact absurd h (by simp)

theorem cacheHit_of (env : Env α) (c : List (String × α)) (k : String) (b : α)
    (h1 : cacheGet c k = some b) (h2 : env.truthy b = true) : cacheHit env c k = some b := by
  rw [cacheHit, h1]
  dsimp only
  rw [if_pos h2]

theorem cacheGet_set_self (c : List (String × α)) (k : String) (b : α) :
    cacheGet (cacheSet c k b) k = some b := by
  simp [cacheGet, cacheSet, List.lookup]

theorem ensurePath_congr (env env' : Env α) (h : env'.fileURLToPath = env.fileURLToPath)
    (p : String) : ensurePath env' p = ensurePath env p := by
  unfold ensurePath
  rw [h]

theorem loadyGo_hit (env : Env α) (c : List (String × α)) (name path p : String) (b : α)
    (hE : ensurePath env path = Except.ok p)
    (hH : cacheHit env c (cacheKey name p) = some b) :
    loadyGo env c name path = ⟨Except.ok b, c, []⟩ := by
  unfold loadyGo
  rw [hE]
  dsimp only
  rw [hH]

theorem loadyGo_ok_cache (env : Env α) (c : List (String × α)) (name path : String) (b : α)
    (h : (loadyGo env c name path).res = Except.ok b) :
    ∃ p, ensurePath env path = Except.ok p ∧
      cacheGet (loadyGo env c name path).cache (cacheKey name p) = some b := by
  unfold loadyGo at h ⊢
  cases hE : ensurePath env path with
  | error e => rw [hE] at h; dsimp only at h; exact absurd h (by simp)
  | ok p =>
    rw [hE] at h
    dsimp only at h ⊢
    refine ⟨p, rfl, ?_⟩
    cases hH : cacheHit env c (cacheKey name p) with
    | some b0 =>
      rw [hH] at h
      dsimp only at h ⊢
      injection h with hb
      subst hb
      exact (cacheHit_some env c _ b0 hH).1
    | none =>
      rw [hH] at h
      dsimp only at h ⊢
      cases hR : getRoot env p with
      | error e =>
        rw [hR] at h
        dsimp only at h ⊢
        exact absurd h (by simp)
      | ok root =>
        rw [hR] at h
        dsimp only at h ⊢
        cases hT : tryCandidates env (optionsFor env root name) paths [] with
        | mk r tries =>
          cases r with
          | ok b0 =>
            rw [hT] at h
            dsimp only at h ⊢
            injection h with hb
            subst hb
            exact cacheGet_set_self c _ b0
          | error e =>
            rw [hT] at h
            dsimp only at h ⊢
            exact absurd h (by simp)

theorem loadyGo_error_cache (env : Env α) (c : List (String × α)) (name path : String)
    (h : resIsOk (loadyGo env c name path).res = false) :
    (loadyGo env c name path).cache = c := by
  unfold loadyGo at h ⊢
  cases hE : ensurePath env path with
  | error e => rfl
  | ok p =>
    rw [hE] at h
    dsimp only at h ⊢
    cases hH : cacheHit env c (cacheKey name p) with
    | some b0 => rw [hH] at h
    | none =>
      rw [hH] at h
      dsimp only at h ⊢
      cases hR : getRoot env p with
      | error e => rfl
      | ok root =>
        rw [hR] at h
        dsimp only at h ⊢
        cases hT : tryCandidates env (optionsFor env root name) paths [] with
        | mk r tries =>
          cases r with
          | ok b0 =>
            rw [hT] at h
            dsimp only at h
            simp [resIsOk] at h
          | error e =>
            rfl

/-! ## Injectivity of the cache key away from NUL -/

theorem append_nul_inj :
    ∀ (a c b d : List Char), '\x00' ∉ a → '\x00' ∉ c →
      a ++ '\x00' :: b = c ++ '\x00' :: d → a = c ∧ b = d := by
  intro a
  induction a with
  | nil =>
    intro c b d _ hc h
    cases c with
    | nil =>
      simp only [List.nil_append] at h
      injection h with h1 h2
      exact ⟨rfl, h2⟩
    | cons x xs =>
      simp only [List.nil_append, List.cons_append] at h
      injection h with h1 h2
      exact absurd (by rw [h1]; exact List.mem_cons_self x xs) hc
  | cons y ys ih =>
    intro c b d ha hc h
    cases c with
    | nil =>
      simp only [List.cons_append, List.nil_append] at h
      injection h with h1 h2
      exact absurd (by rw [← h1]; exact List.mem_cons_self y ys) ha
    | cons x xs =>
      simp only [List.cons_append] at h
      injection h with h1 h2
      have ha' : '\x00' ∉ ys := fun hm => ha (List.mem_cons_of_mem y hm)
      have hc' : '\x00' ∉ xs := fun hm => hc (List.mem_cons_of_mem x hm)
      obtain ⟨hac, hbd⟩ := ih xs b d ha' hc' h2
      subst h1
      exact ⟨by rw [hac], hbd⟩

/-! ## Absolute candidates -/

theorem head?_append_left (l l' : List Char) (h : l ≠ []) : (l ++ l').head? = l.head? := by
  cases l with
  | nil => exact absurd rfl h
  | cons a as => rfl

theorem interSlashC_head (g : List Char) (gs : List (List Char)) (h : g ≠ []) :
    (interSlashC (g :: gs)).head? = g.head? := by
  cases gs with
  | nil => rfl
  | cons g' gs' => exact head?_append_left g _ h

theorem normalizeChars_abs (cs : List Char) (h : cs.head? = some '/') :
    (normalizeChars cs).head? = some '/' := by
  have hne : cs ≠ [] := by
    intro he
    rw [he] at h
    exact Option.noConfusion h
  unfold normalizeChars
  rw [if_neg hne]
  dsimp only
  rw [h]
  rw [show ((some '/' : Option Char) == some '/') = true from rfl]
  simp only [if_pos rfl, Bool.if_true_left]
  split
  · rfl
  · rfl

theorem pjoin_abs (r : String) (rest : List String) (h : r.data.head? = some '/') :
    isAbs (pjoin (r :: rest)) = true := by
  have hne : r.data ≠ [] := by
    intro he
    rw [he] at h
    exact Option.noConfusion h
  have hemp : (!r.data.isEmpty) = true := by
    cases hd : r.data with
    | nil => exact absurd hd hne
    | cons a as => simp [List.isEmpty]
  unfold pjoin
  dsimp only
  rw [List.map_cons, List.filter_cons, if_pos hemp]
  rw [if_neg (by simp : ¬(r.data :: List.filter (fun g => !g.isEmpty)
    (List.map String.data rest)).isEmpty = true)]
  unfold isAbs headChar
  rw [show (String.mk (normalizeChars (interSlashC (r.data :: List.filter
    (fun g => !g.isEmpty) (List.map String.data rest))))).data
    = normalizeChars (interSlashC (r.data :: List.filter (fun g => !g.isEmpty)
      (List.map String.data rest))) from rfl]
  rw [normalizeChars_abs _ (by rw [interSlashC_head _ _ hne]; exact h)]
  rfl

/-! ## The claims -/

/-- C1: from any configuration the candidate list is exactly the fixed
18-entry template expansion of the source, in template order, with the
duplicate Debug entry at position 10 equal to position 5 and the duplicate
Release entry at position 12 equal to position 6; the loop attempts
exactly a prefix of that list in order, every attempted candidate before
the last attempted one reported a classified not-found failure, and a
candidate is reached (not skipped) whenever all earlier ones reported
classified not-found failures.  Determinism is inherent: `candidates` and
`tryCandidates` are functions of the configuration and environment. -/
theorem claim_C1_candidate_order {α : Type} (env : Env α) (opts : Options) :
    candidates opts =
      [ pjoin [opts.root, "build", opts.name],
        pjoin [opts.root, "build", "Debug", opts.name],
        pjoin [opts.root, "build", "Release", opts.name],
        pjoin [opts.root, opts.name],
        pjoin [opts.root, "Debug", opts.name],
        pjoin [opts.root, "Release", opts.name],
        pjoin [opts.root, "MinSizeRel", opts.name],
        pjoin [opts.root, "RelWithDebInfo", opts.name],
        pjoin [opts.root, "out", "Debug", opts.name],
        pjoin [opts.root, "Debug", opts.name],
        pjoin [opts.root, "out", "Release", opts.name],
        pjoin [opts.root, "Release", opts.name],
        pjoin [opts.root, "build", "default", opts.name],
        pjoin [opts.root, opts.compiled, opts.version, opts.platform, opts.arch, opts.name],
        pjoin [opts.root, "addon-build", "release", "install-root", opts.name],
        pjoin [opts.root, "addon-build", "debug", "install-root", opts.name],
        pjoin [opts.root, "addon-build", "default", "install-root", opts.name],
        pjoin [opts.root, "lib", "binding", opts.pregyp, opts.name] ]
    ∧ (candidates opts).length = 18
    ∧ (candidates opts).getD 9 "" = (candidates opts).getD 4 ""
    ∧ (candidates opts).getD 11 "" = (candidates opts).getD 5 ""
    ∧ (tryCandidates env opts paths []).2 =
        (candidates opts).take (numAttempts env opts paths)
    ∧ (∀ j, j + 1 < numAttempts env opts paths →
        loadClassifiedNotFound env ((candidates opts).getD j "") = true)
    ∧ (∀ j, j < 18 →
        (∀ i, i < j → loadClassifiedNotFound env ((candidates opts).getD i "") = true) →
        j < numAttempts env opts paths) := by
  refine ⟨rfl, rfl, rfl, rfl, ?_, ?_, ?_⟩
  · have h := tryCandidates_tries env opts paths []
    simpa [candidates] using h
  · intro j hj
    have h := tryCandidates_before_notFound env opts paths j hj
    simpa [candidates] using h
  · intro j hj hb
    refine tryCandidates_attempted env opts paths j ?_ ?_
    · have hp : paths.length = 18 := rfl
      omega
    · simp only [candidates] at hb
      exact hb

/-- C2: when the search is reached (path ensured, no truthy cache hit,
root located) and candidate j is the first whose load failure is not
classified not-found, the call fails with exactly that error, unmodified,
and the attempt list stops at candidate j: none of the later candidates
is ever handed to the load capability. -/
theorem claim_C2_fail_fast {α : Type} (env : Env α) (cache : List (String × α))
    (name path p root : String) (j : Nat) (e : JsError)
    (hE : ensurePath env path = Except.ok p)
    (hH : cacheHit env cache (cacheKey (normalizeName name) p) = none)
    (hR : getRoot env p = Except.ok root)
    (hj : j < 18)
    (hbefore : ∀ i, i < j → loadClassifiedNotFound env
      ((candidates (optionsFor env root (normalizeName name))).getD i "") = true)
    (hfail : env.loadBinding
      ((candidates (optionsFor env root (normalizeName name))).getD j "") = Except.error e)
    (hclass : isNotFoundErr e = false) :
    loady env cache name path =
      ⟨Except.error (LoadyError.loadFailed e), cache,
        (candidates (optionsFor env root (normalizeName name))).take (j + 1)⟩ := by
  unfold loady loadyGo
  rw [hE]
  dsimp only
  rw [hH]
  dsimp only
  rw [hR]
  dsimp only
  rw [tryCandidates_fatal env (optionsFor env root (normalizeName name)) j paths [] e
    (by have hp : paths.length = 18 := rfl; omega)
    (by simp only [candidates] at hbefore; exact hbefore)
    (by simp only [candidates] at hfail; exact hfail) hclass]
  dsimp only
  simp [candidates]

/-- C2 witness: with the third candidate raising an unclassified dlopen
failure, the call fails with that very error after exactly three
attempts. -/
theorem claim_C2_fail_fast_witness :
    isNotFoundErr fatalErrDemo = false
    ∧ loady envFatalThird ([] : List (String × Nat)) "foo" "/proj" =
        ⟨Except.error (LoadyError.loadFailed fatalErrDemo), [],
          (candidates (optionsFor envFatalThird "/proj" (normalizeName "foo"))).take 3⟩ :=
  ⟨by decide,
    claim_C2_fail_fast envFatalThird [] "foo" "/proj" "/proj" "/proj" 2 fatalErrDemo
      (by decide) (by decide) (by decide) (by decide)
      (by intro i hi; interval_cases i <;> decide) (by decide) (by decide)⟩

/-- C3: when the search is reached and every one of the candidates fails
with a classified not-found failure, the call fails with
ERR_BINDINGS_NOT_FOUND carrying exactly the candidate list — 18 absolute
paths in template order — as the attempted paths. -/
theorem claim_C3_exhaustion {α : Type} (env : Env α) (cache : List (String × α))
    (name path p root : String)
    (hE : ensurePath env path = Except.ok p)
    (hH : cacheHit env cache (cacheKey (normalizeName name) p) = none)
    (hR : getRoot env p = Except.ok root)
    (habs : isAbs root = true)
    (hall : ∀ f ∈ candidates (optionsFor env root (normalizeName name)),
        loadClassifiedNotFound env f = true) :
    loady env cache name path =
      ⟨Except.error (LoadyError.notFound (candidates (optionsFor env root (normalizeName name)))),
        cache, candidates (optionsFor env root (normalizeName name))⟩
    ∧ (candidates (optionsFor env root (normalizeName name))).length = 18
    ∧ errCode (LoadyError.notFound (candidates (optionsFor env root (normalizeName name)))) =
        "ERR_BINDINGS_NOT_FOUND"
    ∧ ∀ f ∈ candidates (optionsFor env root (normalizeName name)), isAbs f = true := by
  refine ⟨?_, rfl, rfl, ?_⟩
  · unfold loady loadyGo
    rw [hE]
    dsimp only
    rw [hH]
    dsimp only
    rw [hR]
    dsimp only
    rw [tryCandidates_exhaust env (optionsFor env root (normalizeName name)) paths []
      (by simp only [candidates] at hall; exact hall)]
    dsimp only
    simp [candidates]
  · intro f hf
    have habs' : root.data.head? = some '/' := eq_of_beq habs
    fin_cases hf <;> exact pjoin_abs root _ habs'

/-- C3 witness: at /proj with no loadable candidate, the call reports
ERR_BINDINGS_NOT_FOUND with all 18 attempts. -/
theorem claim_C3_exhaustion_witness :
    isAbs "/proj" = true
    ∧ loady envExhaust ([] : List (String × Nat)) "foo" "/proj" =
        ⟨Except.error (LoadyError.notFound
            (candidates (optionsFor envExhaust "/proj" (normalizeName "foo")))),
          [], candidates (optionsFor envExhaust "/proj" (normalizeName "foo"))⟩ :=
  ⟨by decide,
    (claim_C3_exhaustion envExhaust [] "foo" "/proj" "/proj" "/proj"
      (by decide) (by decide) (by decide) (by decide) (by decide)).1⟩

/-- C4: a call that ends in any error leaves the cache exactly as it was,
and an identical subsequent call behaves exactly as the first, re-running
the full search. -/
theorem claim_C4_cache_only_on_success {α : Type} (env : Env α)
    (cache : List (String × α)) (name path : String)
    (h : resIsOk (loady env cache name path).res = false) :
    (loady env cache name path).cache = cache
    ∧ loady env ((loady env cache name path).cache) name path =
        loady env cache name path := by
  have hc : (loady env cache name path).cache = cache :=
    loadyGo_error_cache env cache (normalizeName name) path h
  exact ⟨hc, by rw [hc]⟩

/-- C4 witness: an exhausted search leaves the empty cache empty and a
retry behaves identically. -/
theorem claim_C4_cache_only_on_success_witness :
    resIsOk (loady envExhaust ([] : List (String × Nat)) "foo" "/proj").res = false
    ∧ (loady envExhaust ([] : List (String × Nat)) "foo" "/proj").cache = [] :=
  ⟨by decide,
    (claim_C4_cache_only_on_success envExhaust [] "foo" "/proj" (by decide)).1⟩

/-- C5 counterexample: when the first candidate loads the falsy artifact
0, the first call succeeds, yet the second identical call hands the
candidate to the load capability again — its attempt list is non-empty —
instead of short-circuiting from the cache with no further access.  The
truthiness guard on the cache read rejects the cached falsy artifact. -/
theorem claim_C5_cex :
    (loady envFalsy ([] : List (String × Nat)) "foo" "/proj").res = Except.ok 0
    ∧ (loady envFalsy (loady envFalsy ([] : List (String × Nat)) "foo" "/proj").cache
        "foo" "/proj").tries = ["/proj/build/foo.node"] :=
  ⟨by decide, by decide⟩

/-- C5 (amended): after a call succeeds with a truthy artifact, a second
call with the same name and path returns that same artifact with the
cache unchanged and an empty attempt list, and this holds for any
environment agreeing only on the URL decoder and on truthiness — so the
cached return consults neither the filesystem probe nor the load
capability. -/
theorem claim_C5_idempotent_truthy {α : Type} (env env' : Env α)
    (cache : List (String × α)) (name path : String) (b : α)
    (h1 : (loady env cache name path).res = Except.ok b)
    (h2 : env.truthy b = true)
    (h3 : env'.fileURLToPath = env.fileURLToPath)
    (h4 : env'.truthy = env.truthy) :
    loady env' ((loady env cache name path).cache) name path =
      ⟨Except.ok b, (loady env cache name path).cache, []⟩ := by
  obtain ⟨p, hE, hget⟩ := loadyGo_ok_cache env cache (normalizeName name) path b h1
  have hE' : ensurePath env' path = Except.ok p := by
    rw [ensurePath_congr env env' h3 path]
    exact hE
  have hH : cacheHit env' ((loady env cache name path).cache)
      (cacheKey (normalizeName name) p) = some b := by
    apply cacheHit_of
    · exact hget
    · rw [h4]
      exact h2
  exact loadyGo_hit env' _ (normalizeName name) path p b hE' hH

/-- C5 witness: after the truthy success at /proj/build/foo.node, the
second call returns 7 from the cache with no attempts. -/
theorem claim_C5_idempotent_truthy_witness :
    (loady envOk ([] : List (String × Nat)) "foo" "/proj").res = Except.ok 7
    ∧ loady envOk (loady envOk ([] : List (String × Nat)) "foo" "/proj").cache "foo" "/proj" =
        ⟨Except.ok 7, (loady envOk ([] : List (String × Nat)) "foo" "/proj").cache, []⟩ :=
  ⟨by decide,
    claim_C5_idempotent_truthy envOk envOk [] "foo" "/proj" 7
      (by decide) (by decide) rfl rfl⟩

/-- C6: whenever the dirname chain upward from the resolved origin
contains a directory with a root marker, `getRoot` returns the first such
directory of the chain — the nearest marked ancestor, the start
included. -/
theorem claim_C6_nearestRoot {α : Type} (env : Env α) (path d : String)
    (h : (chainOf env path).find? (fun dir => hasMarker env dir) = some d) :
    getRoot env path = Except.ok d := by
  rw [getRoot_eq env path, h]

/-- C6 witness: with the only marker at /a, the chain /a/b/c, /a/b, /a, /
resolves to /a. -/
theorem claim_C6_nearestRoot_witness :
    chainOf envChain "/a/b/c" = ["/a/b/c", "/a/b", "/a", "/"]
    ∧ (chainOf envChain "/a/b/c").find? (fun dir => hasMarker envChain dir) = some "/a"
    ∧ getRoot envChain "/a/b/c" = Except.ok "/a" :=
  ⟨by decide, by decide, claim_C6_nearestRoot envChain "/a/b/c" "/a" (by decide)⟩

/-- C7 counterexample: with no marker anywhere, a call whose origin is
the URI file:///proj/index.js fails with NoProjectRoot carrying the
converted directory /proj — not the original origin as supplied by the
caller, contradicting the claim for URI origins. -/
theorem claim_C7_cex :
    loady envNoMarkers ([] : List (String × Nat)) "x" "file:///proj/index.js" =
      ⟨Except.error (LoadyError.noRoot "/proj"), [], []⟩
    ∧ ("/proj" : String) ≠ "file:///proj/index.js" :=
  ⟨by decide, by decide⟩

/-- C7 (amended): when no directory of the chain upward from the ensured
origin carries a marker, the call fails with ERR_BINDINGS_NO_ROOT
carrying the origin path after file-URI conversion; when the origin is
not a file URI this is the origin of the caller, verbatim. -/
theorem claim_C7_noroot_ensured_path {α : Type} (env : Env α)
    (cache : List (String × α)) (name path p : String)
    (hE : ensurePath env path = Except.ok p)
    (hH : cacheHit env cache (cacheKey (normalizeName name) p) = none)
    (hnone : ∀ dir ∈ chainOf env p, hasMarker env dir = false) :
    loady env cache name path = ⟨Except.error (LoadyError.noRoot p), cache, []⟩
    ∧ errCode (LoadyError.noRoot p) = "ERR_BINDINGS_NO_ROOT"
    ∧ (startsWithFile path = false → p = path) := by
  refine ⟨?_, rfl, ?_⟩
  · unfold loady loadyGo
    rw [hE]
    dsimp only
    rw [hH]
    dsimp only
    have hg : getRoot env p = Except.error (LoadyError.noRoot p) := by
      rw [getRoot_eq env p,
        List.find?_eq_none.mpr (fun dir hd => by rw [hnone dir hd]; exact Bool.false_ne_true)]
    rw [hg]
  · intro hsw
    unfold ensurePath at hE
    rw [if_neg (by rw [hsw]; exact Bool.false_ne_true)] at hE
    injection hE with hp
    exact hp.symm

/-- C7 witness: with no marker anywhere and the plain origin /proj, the
call fails with NoProjectRoot carrying /proj itself. -/
theorem claim_C7_noroot_ensured_path_witness :
    (∀ dir ∈ chainOf envNoMarkers "/proj", hasMarker envNoMarkers dir = false)
    ∧ loady envNoMarkers ([] : List (String × Nat)) "foo" "/proj" =
        ⟨Except.error (LoadyError.noRoot "/proj"), [], []⟩ :=
  ⟨by decide,
    (claim_C7_noroot_ensured_path envNoMarkers [] "foo" "/proj" "/proj"
      (by decide) (by decide) (by decide)).1⟩

/-- C8 counterexample: two distinct normalized-name and path tuples whose
components contain the NUL separator collide on the same textual cache
key; both first components are fixed points of name normalization, hence
genuine normalized names. -/
theorem claim_C8_cex :
    cacheKey "x.node" "y.node\x00z" = cacheKey "x.node\x00y.node" "z"
    ∧ ("x.node" : String) ≠ "x.node\x00y.node"
    ∧ normalizeName "x.node" = "x.node"
    ∧ normalizeName "x.node\x00y.node" = "x.node\x00y.node" :=
  ⟨by decide, by decide, by decide, by decide⟩

/-- C8 (amended): the cache key is injective as long as neither name
contains the NUL separator character: equal keys force equal names and
equal paths. -/
theorem claim_C8_key_injective_no_nul (n1 p1 n2 p2 : String)
    (h1 : '\x00' ∉ n1.data) (h2 : '\x00' ∉ n2.data)
    (h : cacheKey n1 p1 = cacheKey n2 p2) : n1 = n2 ∧ p1 = p2 := by
  have hh := congrArg String.data h
  simp only [cacheKey, String.data_append,
    show ("\x00" : String).data = ['\x00'] from rfl, List.append_assoc,
    List.singleton_append] at hh
  obtain ⟨ha, hb⟩ := append_nul_inj n1.data n2.data p1.data p2.data h1 h2 hh
  constructor
  · have hs := congrArg String.mk ha
    rwa [strMk_data, strMk_data] at hs
  · have hs := congrArg String.mk hb
    rwa [strMk_data, strMk_data] at hs

/-- C8 witness: NUL-free names make the key decomposition unique. -/
theorem claim_C8_key_injective_no_nul_witness :
    ('\x00' ∉ ("foo.node" : String).data)
    ∧ ("foo.node" : String) = "foo.node" ∧ ("/proj" : String) = "/proj" :=
  ⟨by decide,
    claim_C8_key_injective_no_nul "foo.node" "/proj" "foo.node" "/proj"
      (by decide) (by decide) rfl⟩

/-- C9: a name whose extension is not the recognized one gets the
extension appended before anything else, and the names foo and foo.node
normalize identically, so entire calls with either name coincide — in
particular their candidate lists do. -/
theorem claim_C9_normalization :
    (∀ name : String, extnameOf name ≠ ".node" → normalizeName name = name ++ ".node")
    ∧ normalizeName "foo" = normalizeName "foo.node"
    ∧ (∀ (α : Type) (env : Env α) (cache : List (String × α)) (origin : String),
        loady env cache "foo" origin = loady env cache "foo.node" origin) := by
  refine ⟨?_, rfl, ?_⟩
  · intro name h
    unfold normalizeName
    rw [if_pos h]
  · intro α env cache origin
    rfl

/-- C10 counterexample: with a falsy artifact, a success under the URI
origin file:///proj/index.js is not returned from the cache for the
plain-path origin /proj: the second call hands a candidate to the load
capability again. -/
theorem claim_C10_cex :
    (loady envURIFalsy ([] : List (String × Nat)) "foo" "file:///proj/index.js").res =
      Except.ok 0
    ∧ (loady envURIFalsy (loady envURIFalsy ([] : List (String × Nat)) "foo"
        "file:///proj/index.js").cache "foo" "/proj").tries = ["/proj/build/foo.node"] :=
  ⟨by decide, by decide⟩

/-- C10 (amended): the cache key is built from the origin after file-URI
conversion, so a URI origin and the plain path of its containing
directory ensure to the same path and hence the same key; a truthy
success under the URI origin is returned straight from the cache for the
plain-path origin, with no attempts and the cache unchanged. -/
theorem claim_C10_key_from_converted {α : Type} (env : Env α)
    (cache : List (String × α)) (name uri dir : String) (f : String → String) (b : α)
    (hfu : env.fileURLToPath = some f)
    (hdir : dirname (f uri) = dir)
    (huri : startsWithFile uri = true)
    (hplain : startsWithFile dir = false)
    (hok : (loady env cache name uri).res = Except.ok b)
    (htr : env.truthy b = true) :
    ensurePath env uri = Except.ok dir
    ∧ ensurePath env dir = Except.ok dir
    ∧ loady env ((loady env cache name uri).cache) name dir =
        ⟨Except.ok b, (loady env cache name uri).cache, []⟩ := by
  have hEuri : ensurePath env uri = Except.ok dir := by
    unfold ensurePath
    rw [if_pos huri, hfu]
    dsimp only
    rw [hdir]
  have hEdir : ensurePath env dir = Except.ok dir := by
    unfold ensurePath
    rw [if_neg (by rw [hplain]; exact Bool.false_ne_true)]
  refine ⟨hEuri, hEdir, ?_⟩
  obtain ⟨p, hE, hget⟩ := loadyGo_ok_cache env cache (normalizeName name) uri b hok
  rw [hEuri] at hE
  injection hE with hp
  subst hp
  exact loadyGo_hit env _ (normalizeName name) dir dir b hEdir
    (cacheHit_of env _ _ b hget htr)

/-- C10 witness: a truthy success under the URI origin is returned from
the cache for the plain path /proj with no attempts. -/
theorem claim_C10_key_from_converted_witness :
    (loady envURIOk ([] : List (String × Nat)) "foo" "file:///proj/index.js").res =
      Except.ok 7
    ∧ loady envURIOk (loady envURIOk ([] : List (String × Nat)) "foo"
        "file:///proj/index.js").cache "foo" "/proj" =
        ⟨Except.ok 7,
          (loady envURIOk ([] : List (String × Nat)) "foo" "file:///proj/index.js").cache,
          []⟩ :=
  ⟨by decide,
    (claim_C10_key_from_converted envURIOk [] "foo" "file:///proj/index.js" "/proj"
      (fun _ => "/proj/index.js") 7 rfl (by decide) (by decide) (by decide)
      (by decide) (by decide)).2.2⟩

end Loady
